import Mathlib

/-!
Shallow embedding of the git-backup repository (mccahan/git-backup).

The embedded components:
* history store (`history.js`): `addHistoryEntry`, `getHistory`, `getLatestForMapping`;
* commit-URL derivation (`github.js`): `parseRepoUrl`, `buildCommitUrl`, with the
  SSH-shorthand regex `git@github\.com:([^/]+)\/([^/.]+)(?:\.git)?$` modelled as an
  explicit matcher and the WHATWG `new URL` platform API modelled as `parseURL`;
* the mapping synchronizer (`backup.js`): `runBackupForMapping`, `commitWithCopilot`,
  with external effects (rsync, git, copilot) captured by an environment record and
  an explicit action trace;
* the orchestrator (`server.js`): `runFullBackup` with the `backupInProgress` guard,
  plus `safeRepoUrl` and the `/status` payload.

External process results (rsync exit codes, copilot exit codes, git status counts,
timestamps) are inputs supplied through environment records; filesystem and network
effects are recorded in an action trace so that theorems can state which external
operations were or were not performed.
-/

namespace GitBackup

/-! ## Data model -/

/-- One backup mapping (source directory → repository subdirectory), as stored by
the mapping store (`config.js`) and consumed by `backup.js` / `server.js`. -/
structure Mapping where
  id : String
  name : String
  sourceDir : String
  repoSubdir : String
  enabled : Bool
  ignorePatterns : List String := []
  readmeSection : Bool := false
  deriving Repr, DecidableEq

/-- The value returned by `runBackupForMapping` on a change:
`{ commitSha, commitMessage, filesChanged }`. -/
structure MappingResult where
  commitSha : String
  commitMessage : String
  filesChanged : Nat
  deriving Repr, DecidableEq

/-- One immutable history record (`history.js` entry shape, built in
`server.js` `runFullBackup`). -/
structure HistoryEntry where
  timestamp : String
  mappingId : String
  mappingName : String
  commitSha : String
  commitMessage : String
  filesChanged : Nat
  commitUrl : Option String
  deriving Repr, DecidableEq

/-- Settings record persisted by the mapping store (`config.js` `getSettings`). -/
structure Settings where
  globalIgnorePatterns : List String := []
  configBackupPath : String := ""
  deriving Repr, DecidableEq

/-! ## History store (`history.js`)

`history.js` ships concatenated at the end of `IMPLEMENTATION_SUMMARY.md` in this
snapshot; the in-memory list stands for the JSON array held in `HISTORY_FILE`
(newest first). `readHistory`/`writeHistory` are file I/O and are modelled by
passing the entry list explicitly. -/

/-- The cap `MAX_ENTRIES = 500`. -/
def MAX_ENTRIES : Nat := 500

/-- Embedding of `addHistoryEntry(entry)`: `entries.unshift(entry)` then truncate with
`entries.length = MAX_ENTRIES` when the array exceeds the cap. -/
def addHistoryEntry (entry : HistoryEntry) (entries : List HistoryEntry) :
    List HistoryEntry :=
  let entries' := entry :: entries
  if entries'.length > MAX_ENTRIES then entries'.take MAX_ENTRIES else entries'

/-- Embedding of `getHistory({ mappingId, limit })`: filter by mapping id when `mappingId` is
truthy (a non-empty string), then apply `slice(0, limit)` when `limit` is truthy
(a non-zero number). JavaScript truthiness makes the empty string and `0`
behave as "absent". -/
def getHistory (mappingId : Option String) (limit : Option Nat)
    (entries : List HistoryEntry) : List HistoryEntry :=
  let entries₁ :=
    match mappingId with
    | some mid => if mid ≠ "" then entries.filter (fun e => e.mappingId == mid) else entries
    | none => entries
  match limit with
  | some l => if l ≠ 0 then entries₁.take l else entries₁
  | none => entries₁

/-- Embedding of `getLatestForMapping(mappingId)`: first (newest) entry with that mapping id,
or none. -/
def getLatestForMapping (mappingId : String) (entries : List HistoryEntry) :
    Option HistoryEntry :=
  entries.find? (fun e => e.mappingId == mappingId)

/-! ## Commit-URL derivation (`github.js`)

`parseRepoUrl` first runs the regex
`/git@github\.com:([^\/]+)\/([^\/.]+)(?:\.git)?$/` over the url (anchored at the
end only, not at the start), then falls back to `new URL` parsing with a
`hostname === 'github.com'` check. The regex is modelled by an explicit matcher:
a match exists at a position exactly when the literal `git@github.com:` occurs
there, followed by one slash-free non-empty owner segment, one slash, and a
non-empty dot-free repo segment, optionally suffixed by `.git`, reaching the end
of the string. -/

/-- Embedding of `s.startsWith(pre)` on the character-list representation (used instead of
`String.isPrefixOf`, which does not reduce definitionally). -/
def strStartsWith (s pre : String) : Bool := pre.data.isPrefixOf s.data

/-- The literal part of the SSH-shorthand regex. -/
def sshLit : List Char := "git@github.com:".data

/-- The `([^/.]+)(?:\.git)?$` tail of the SSH regex: `r` must be a non-empty
dot-free segment, optionally followed by a literal `.git`. Returns the captured
repo segment. -/
def sshRepoPart (r : List Char) : Option (List Char) :=
  if r.contains '.' then
    let pre := r.take (r.length - 4)
    if r.drop (r.length - 4) == ".git".data && !pre.isEmpty && !pre.contains '.' then
      some pre
    else none
  else if !r.isEmpty then some r else none

/-- Match the SSH-shorthand regex starting exactly at the head of `l` and
reaching the end of `l`; returns the `(owner, repo)` captures. -/
def sshMatchAt (l : List Char) : Option (String × String) :=
  if sshLit.isPrefixOf l then
    match (l.drop sshLit.length).splitOn '/' with
    | [o, r] =>
      if !o.isEmpty then
        match sshRepoPart r with
        | some repo => some (String.mk o, String.mk repo)
        | none => none
      else none
    | _ => none
  else none

/-- Leftmost search for the SSH-shorthand regex: JavaScript `String.match` with
an end-anchored (but not start-anchored) pattern succeeds when the pattern
matches starting at any position of the string. -/
def sshFind : List Char → Option (String × String)
  | [] => none
  | c :: cs =>
    match sshMatchAt (c :: cs) with
    | some x => some x
    | none => sshFind cs

/-- Modelled from the WHATWG `URL` platform API (external dependency of
`github.js`, `backup.js` and `server.js`): the components the code reads and
writes. `host` holds the hostname (lowercased, no port); `port` is the decimal
digit string or empty; `path` is the pathname (query and fragment are cut off
and dropped). Percent-encoding, IPv6 hosts, backslash-as-slash and dot-segment
normalization are outside the model. -/
structure UrlObj where
  scheme : String
  username : String
  password : String
  host : String
  port : String
  path : String
  deriving Repr, DecidableEq

/-- The ASCII uppercase letters. -/
def upperChars : List Char :=
  ['A', 'B', 'C', 'D', 'E', 'F', 'G', 'H', 'I', 'J', 'K', 'L', 'M',
   'N', 'O', 'P', 'Q', 'R', 'S', 'T', 'U', 'V', 'W', 'X', 'Y', 'Z']

/-- ASCII lowercasing, written as an explicit table (the WHATWG URL parser
lowercases the scheme and the hostname; non-ASCII host handling is outside
the model). -/
def asciiLower (c : Char) : Char :=
  match c with
  | 'A' => 'a' | 'B' => 'b' | 'C' => 'c' | 'D' => 'd' | 'E' => 'e'
  | 'F' => 'f' | 'G' => 'g' | 'H' => 'h' | 'I' => 'i' | 'J' => 'j'
  | 'K' => 'k' | 'L' => 'l' | 'M' => 'm' | 'N' => 'n' | 'O' => 'o'
  | 'P' => 'p' | 'Q' => 'q' | 'R' => 'r' | 'S' => 's' | 'T' => 't'
  | 'U' => 'u' | 'V' => 'v' | 'W' => 'w' | 'X' => 'x' | 'Y' => 'y'
  | 'Z' => 'z'
  | other => other

/-- First character of a URL scheme: a letter. -/
def isSchemeStart (c : Char) : Bool := c.isAlpha

/-- Subsequent characters of a URL scheme. -/
def isSchemeChar (c : Char) : Bool :=
  c.isAlpha || c.isDigit || c == '+' || c == '-' || c == '.'

def okUserChar (c : Char) : Bool :=
  c != '@' && c != ':' && c != '/' && c != '?' && c != '#'

def okPassChar (c : Char) : Bool :=
  c != '@' && c != '/' && c != '?' && c != '#'

def okHostChar (c : Char) : Bool :=
  c != '@' && c != ':' && c != '/' && c != '?' && c != '#' &&
    !upperChars.contains c

/-- Modelled from the WHATWG `URL` API: parse the authority section
`[user[:pass]@]host[:port]` (userinfo split at the last `@`, username/password
at the first `:`, host/port at the first `:` of the host-port part; hostname
must be non-empty, port must be digits; hostname is lowercased). -/
def parseAuthority (authority : List Char) :
    Option (List Char × List Char × List Char × List Char) :=
  let revA := authority.reverse
  let hostportRev := revA.takeWhile (fun c => c != '@')
  let hostport := hostportRev.reverse
  let userinfo := (revA.drop (hostportRev.length + 1)).reverse
  let username := userinfo.takeWhile (fun c => c != ':')
  let password :=
    if username.length = userinfo.length then [] else userinfo.drop (username.length + 1)
  let host := hostport.takeWhile (fun c => c != ':')
  let port :=
    if host.length = hostport.length then [] else hostport.drop (host.length + 1)
  if host.isEmpty then none
  else if !port.all Char.isDigit then none
  else some (username, password, host.map asciiLower, port)

/-- Modelled from the WHATWG `URL` API (`new URL(s)`): the hierarchical
`scheme://[userinfo@]host[:port]/path` shape; any other shape is a parse
failure (`new URL` throwing `TypeError`). -/
def parseURL (s : String) : Option UrlObj :=
  let l := s.data
  let schemeChars := l.takeWhile isSchemeChar
  let rest := l.drop schemeChars.length
  match schemeChars with
  | [] => none
  | c :: _ =>
    if !isSchemeStart c then none
    else
      match rest with
      | ':' :: '/' :: '/' :: rest₂ =>
        let authority := rest₂.takeWhile (fun ch => ch != '/' && ch != '?' && ch != '#')
        let path := (rest₂.drop authority.length).takeWhile (fun ch => ch != '?' && ch != '#')
        match parseAuthority authority with
        | some (username, password, host, port) =>
          some { scheme := String.mk (schemeChars.map asciiLower),
                 username := String.mk username,
                 password := String.mk password,
                 host := String.mk host,
                 port := String.mk port,
                 path := String.mk path }
        | none => none
      | _ => none

/-- The userinfo section of the WHATWG serialization:
`username[:password]@` exactly when username or password is non-empty. -/
def userinfoChars (username password : List Char) : List Char :=
  if username.isEmpty && password.isEmpty then []
  else username ++ (if password.isEmpty then [] else ':' :: password) ++ ['@']

/-- The port section of the WHATWG serialization: `:port` when non-empty. -/
def portChars (port : List Char) : List Char :=
  if port.isEmpty then [] else ':' :: port

/-- Modelled from the WHATWG `URL` API (`url.toString()` / `href`):
`scheme://[username[:password]@]host[:port]path`, with the userinfo section
present exactly when username or password is non-empty and the `:port` part
present exactly when a port is present. -/
def UrlObj.serialize (u : UrlObj) : String :=
  String.mk (u.scheme.data ++ ':' :: '/' :: '/' ::
    (userinfoChars u.username.data u.password.data ++ u.host.data ++
      portChars u.port.data ++ u.path.data))

/-- Well-formedness of a URL object: the canonical-shape invariants under
which `UrlObj.serialize` is inverted by `parseURL`. Every `parseURL` output
satisfies all conditions except possibly those on username and password
(WHATWG percent-encodes those components; percent-encoding is outside the
model). -/
def UrlObj.WF (u : UrlObj) : Bool :=
  (match u.scheme.data with
   | [] => false
   | c :: _ => isSchemeStart c) &&
  u.scheme.data.all (fun c => isSchemeChar c && !upperChars.contains c) &&
  u.username.data.all okUserChar &&
  u.password.data.all okPassChar &&
  !u.host.data.isEmpty &&
  u.host.data.all okHostChar &&
  u.port.data.all Char.isDigit &&
  (match u.path.data with
   | [] => true
   | c :: _ => c == '/') &&
  u.path.data.all (fun c => c != '?' && c != '#')

/-- Embedding of `pathname.replace(/\.git$/, '')`: strip one `.git` suffix if present. -/
def stripDotGitSuffix (p : String) : String :=
  if p.data.length ≥ 4 && p.data.drop (p.data.length - 4) == ".git".data then
    String.mk (p.data.take (p.data.length - 4))
  else p

/-- Embedding of `pathname.replace(/\.git$/, '').split('/').filter(Boolean)`: the non-empty
path segments of the `.git`-stripped pathname. -/
def githubParts (u : UrlObj) : List (List Char) :=
  ((stripDotGitSuffix u.path).data.splitOn '/').filter (fun seg => !seg.isEmpty)

/-- Embedding of `parseRepoUrl(url)` from `github.js`: empty url → null; then the SSH regex;
then `new URL` with `hostname === 'github.com'` and at least two non-empty
path segments of the `.git`-stripped pathname. -/
def parseRepoUrl (url : String) : Option (String × String) :=
  if url = "" then none
  else
    match sshFind url.data with
    | some (o, r) => some (o, r)
    | none =>
      match parseURL url with
      | some u =>
        if u.host == "github.com" then
          match githubParts u with
          | o :: r :: _ => some (String.mk o, String.mk r)
          | _ => none
        else none
      | none => none

/-- Embedding of `buildCommitUrl(repoUrl, sha)` from `github.js`. -/
def buildCommitUrl (repoUrl sha : String) : Option String :=
  match parseRepoUrl repoUrl with
  | some (owner, repo) =>
    some ("https://github.com/" ++ owner ++ "/" ++ repo ++ "/commit/" ++ sha)
  | none => none

/-! ## Global configuration (`backup.js` `getGlobalConfig`) -/

/-- The global config object built from environment variables. -/
structure GlobalConfig where
  repoUrl : String
  branch : String
  repoDir : String
  userName : String
  userEmail : String
  backupIntervalHours : Nat
  globalIgnorePatterns : List String := []
  deriving Repr, DecidableEq

/-- The environment variables `getGlobalConfig` reads. `backupIntervalHours`
models `parseInt(process.env.BACKUP_INTERVAL_HOURS)`: `none` for an unset or
non-numeric value (`NaN`). -/
structure EnvVars where
  gitRepoUrl : String
  gitBranch : String := ""
  gitUserName : String := ""
  gitUserEmail : String := ""
  backupIntervalHours : Option Nat := none
  githubToken : String := ""
  deriving Repr, DecidableEq

/-- The constant `REPO_DIR = '/repo'`. -/
def REPO_DIR : String := "/repo"

/-- Embedding of `getGlobalConfig()` from `backup.js`: defaults via JavaScript `||`
(so `0`/`NaN` interval and empty strings fall back), required `GIT_REPO_URL`,
and the `GITHUB_TOKEN` embedded as the username of an `https://` repo URL with
an empty password. A `new URL` failure there would propagate (`.error`). -/
def getGlobalConfig (env : EnvVars) : Except String GlobalConfig :=
  if env.gitRepoUrl = "" then
    .error "GIT_REPO_URL environment variable is required"
  else
    let withToken : Except String String :=
      if strStartsWith env.gitRepoUrl "https://" && env.githubToken != "" then
        match parseURL env.gitRepoUrl with
        | some u =>
          .ok (UrlObj.serialize { u with username := env.githubToken, password := "" })
        | none => .error "Invalid URL"
      else .ok env.gitRepoUrl
    withToken.map (fun repoUrl =>
      { repoUrl := repoUrl
        branch := if env.gitBranch != "" then env.gitBranch else "main"
        repoDir := REPO_DIR
        userName := if env.gitUserName != "" then env.gitUserName else "Git Backup Bot"
        userEmail :=
          if env.gitUserEmail != "" then env.gitUserEmail else "gitbackup@example.com"
        backupIntervalHours :=
          match env.backupIntervalHours with
          | some n => if n ≠ 0 then n else 6
          | none => 6 })

/-! ## Status endpoint (`server.js`) -/

/-- Embedding of `safeRepoUrl()` from `server.js`: parse the configured repo URL, blank out
username and password, and serialize; if parsing throws, return the URL
unchanged (the `catch` branch). -/
def safeRepoUrl (repoUrl : String) : String :=
  match parseURL repoUrl with
  | some u => UrlObj.serialize { u with username := "", password := "" }
  | none => repoUrl

/-- The JSON body served by `GET /api/status`. -/
structure StatusPayload where
  repoUrl : String
  branch : String
  intervalHours : Nat
  backupInProgress : Bool
  basePath : String
  deriving Repr, DecidableEq

/-- The `/status` route handler of `server.js`. -/
def statusResponse (cfg : GlobalConfig) (backupInProgress : Bool)
    (basePath : String) : StatusPayload :=
  { repoUrl := safeRepoUrl cfg.repoUrl
    branch := cfg.branch
    intervalHours := cfg.backupIntervalHours
    backupInProgress := backupInProgress
    basePath := basePath }

/-! ## Mapping synchronizer (`backup.js` `runBackupForMapping`)

External effects are recorded in an action trace; outcomes of the external
processes (rsync, copilot, git push) and of filesystem probes are inputs in a
`SyncEnv` record. -/

/-- Externally visible operations of one `runBackupForMapping` call, in
program order. -/
inductive Action
  | mkdirTarget (dir : String)
  | rsync (args : List String)
  | writeManagedGitignore (dest : String) (content : String)
  | gitStatus
  | gitAdd
  | copilotInvoke
  | gitLog
  | gitCommit (msg : String)
  | gitPush (branch : String)
  deriving Repr, DecidableEq

/-- Results of the filesystem probes and external processes during one
`runBackupForMapping` call. `statusFiles` is `status.files.length` after the
file sync; `headSha` is the hash read back by the final `git log`; `now` is
`new Date().toISOString()` at fallback-commit time;
`copilotCommitMessage` is the message read back from `git log` after a
successful copilot commit. -/
structure SyncEnv where
  targetDirExists : Bool := true
  sourceGitignoreExists : Bool := false
  rsyncError : Option String := none
  rsyncStatus : Nat := 0
  statusFiles : Nat := 0
  copilotError : Option String := none
  copilotStatus : Nat := 0
  copilotCommitMessage : String := ""
  pushError : Option String := none
  headSha : String := ""
  now : String := ""

/-- The characters rejected by the path validation regex `/["';|]/`:
double quote, single quote, semicolon, pipe. -/
def badChars : List Char := [Char.ofNat 34, Char.ofNat 39, ';', '|']

/-- Embedding of the test `/["';|]/.test(p)`. -/
def hasBadChar (s : String) : Bool := s.data.any (fun c => badChars.contains c)

/-- Embedding of `path.join(a, b)` for the simple two-segment joins the code performs
(no normalization modelled). -/
def pathJoin (a b : String) : String := a ++ "/" ++ b

/-- The target directory `repoSubdir ? path.join(repoDir, repoSubdir) : repoDir`. -/
def targetDirOf (mapping : Mapping) (cfg : GlobalConfig) : String :=
  if mapping.repoSubdir != "" then pathJoin cfg.repoDir mapping.repoSubdir
  else cfg.repoDir

/-- The rsync argument vector built by `runBackupForMapping`: `-av --delete`,
the two base excludes, one `--exclude=<p>` per truthy global then per-mapping
ignore pattern, an `--exclude-from` for the source directory's own
`.gitignore` when it exists, then `<sourceDir>/ <targetDir>/`. -/
def rsyncArgsOf (env : SyncEnv) (mapping : Mapping) (cfg : GlobalConfig) :
    List String :=
  let globalPatterns := cfg.globalIgnorePatterns.filter (fun p => p != "")
  let mappingPatterns := mapping.ignorePatterns.filter (fun p => p != "")
  let allPatterns := globalPatterns ++ mappingPatterns
  ["-av", "--delete", "--exclude=.git", "--exclude=.gitignore"] ++
    allPatterns.map (fun pattern => "--exclude=" ++ pattern) ++
    (if env.sourceGitignoreExists then
      ["--exclude-from=" ++ pathJoin mapping.sourceDir ".gitignore"]
    else []) ++
    [mapping.sourceDir ++ "/", targetDirOf mapping cfg ++ "/"]

/-- Embedding of `commitWithCopilot(repoGit, mappingName)` from `backup.js`: invoke the
copilot CLI; on a spawn error or a non-zero exit status, commit with the
deterministic fallback message `Backup <name>: <ISO timestamp>` and return it;
on success, read the commit message back from `git log`. Returns the message
and the actions performed. -/
def commitWithCopilot (env : SyncEnv) (mappingName : String) :
    String × List Action :=
  if env.copilotError.isNone && env.copilotStatus = 0 then
    (env.copilotCommitMessage, [Action.copilotInvoke, Action.gitLog])
  else
    let fallbackMessage := "Backup " ++ mappingName ++ ": " ++ env.now
    (fallbackMessage, [Action.copilotInvoke, Action.gitCommit fallbackMessage])

/-- Embedding of `runBackupForMapping(repoGit, mapping, globalConfig)` from `backup.js`:
resolve the target directory, validate both paths against `/["';|]/`, create
the target subdirectory, build the rsync argument vector (base excludes, then
global and per-mapping ignore patterns filtered by JavaScript `Boolean`, then a
`--exclude-from` for a `.gitignore` inside the source directory), run rsync,
write the managed `.gitignore`, check `git status`, and on changes stage,
commit via `commitWithCopilot`, push, and read back the commit hash.
Returns `.ok none` when zero files changed, together with the action trace. -/
def runBackupForMapping (env : SyncEnv) (mapping : Mapping) (cfg : GlobalConfig) :
    Except String (Option MappingResult) × List Action :=
  let targetDir := targetDirOf mapping cfg
  if hasBadChar mapping.sourceDir then
    (.error ("Invalid path: " ++ mapping.sourceDir), [])
  else if hasBadChar targetDir then
    (.error ("Invalid path: " ++ targetDir), [])
  else
    let mkdirActions :=
      if mapping.repoSubdir != "" && !env.targetDirExists then
        [Action.mkdirTarget targetDir]
      else []
    let globalPatterns := cfg.globalIgnorePatterns.filter (fun p => p != "")
    let mappingPatterns := mapping.ignorePatterns.filter (fun p => p != "")
    let allPatterns := globalPatterns ++ mappingPatterns
    let gitignorePath := pathJoin mapping.sourceDir ".gitignore"
    if env.sourceGitignoreExists && hasBadChar gitignorePath then
      (.error "Invalid .gitignore path", mkdirActions)
    else
      let trace₀ := mkdirActions ++ [Action.rsync (rsyncArgsOf env mapping cfg)]
      match env.rsyncError with
      | some e => (.error e, trace₀)
      | none =>
        if env.rsyncStatus ≠ 0 then
          (.error ("rsync exited with code " ++ toString env.rsyncStatus), trace₀)
        else
          let gitignoreWrites :=
            if !allPatterns.isEmpty then
              [Action.writeManagedGitignore (pathJoin targetDir ".gitignore")
                ("# Managed by git-backup\n" ++ String.intercalate "\n" allPatterns ++ "\n")]
            else []
          let trace₁ := trace₀ ++ gitignoreWrites ++ [Action.gitStatus]
          if env.statusFiles = 0 then
            (.ok none, trace₁)
          else
            let commit := commitWithCopilot env mapping.name
            let trace₂ := trace₁ ++ [Action.gitAdd] ++ commit.2 ++ [Action.gitPush cfg.branch]
            match env.pushError with
            | some e => (.error e, trace₂)
            | none =>
              (.ok (some { commitSha := env.headSha, commitMessage := commit.1,
                           filesChanged := env.statusFiles }),
               trace₂ ++ [Action.gitLog])

/-! ## Backup orchestrator (`server.js` `runFullBackup`)

The synchronizer is abstracted as `env.sync` (instantiated in a real run by
`runBackupForMapping` applied to the cycle's filesystem); `prepareRepo`,
`getSettings`, `getMappings` and `restoreConfigFromRepo` outcomes are inputs.
The housekeeping tail of the cycle (README regeneration, config mirror,
metadata commit) wraps each step in its own `try/catch`, so no error from it
escapes the cycle; it is recorded as a single trace element. -/

/-- One element of the per-mapping `results` array of `runFullBackup`:
a history entry on success, `{ mappingId, mappingName, noChanges: true }`,
or `{ mappingId, mappingName, error }`. -/
inductive CycleResult
  | success (entry : HistoryEntry)
  | noChanges (mappingId mappingName : String)
  | error (mappingId mappingName errorMessage : String)
  deriving Repr, DecidableEq

/-- The mapping id a cycle result is recorded against. -/
def CycleResult.mappingId : CycleResult → String
  | .success e => e.mappingId
  | .noChanges mid _ => mid
  | .error mid _ _ => mid

/-- Coarse orchestrator-level operations, to state what a rejected request did
not do. -/
inductive OrchAction
  | prepareRepo
  | syncMapping (id : String)
  | housekeeping
  deriving Repr, DecidableEq

/-- Process-wide orchestrator state: the `backupInProgress` guard and the
history store contents. -/
structure OrchState where
  backupInProgress : Bool
  history : List HistoryEntry
  deriving Repr, DecidableEq

/-- Inputs of one `runFullBackup` cycle. `restoredSettings = some s` models
`restoreConfigFromRepo` succeeding followed by the re-read of settings;
`gitRepoUrlEnv` is `process.env.GIT_REPO_URL || ''` as used for
`buildCommitUrl`. -/
structure OrchEnv where
  cfg : GlobalConfig
  settings : Settings
  prepareError : Option String := none
  configFileExists : Bool := true
  restoredSettings : Option Settings := none
  mappings : List Mapping
  sync : GlobalConfig → Mapping → Except String (Option MappingResult)
  now : String := ""
  gitRepoUrlEnv : String := ""

/-- The settings in force for the cycle after the optional config restore. -/
def effectiveSettings (env : OrchEnv) : Settings :=
  if !env.configFileExists then
    match env.restoredSettings with
    | some s => s
    | none => env.settings
  else env.settings

/-- The `globalConfig` view passed to synchronizer calls:
`globalConfig.globalIgnorePatterns = settings.globalIgnorePatterns || []`. -/
def effectiveCfg (env : OrchEnv) : GlobalConfig :=
  { env.cfg with globalIgnorePatterns := (effectiveSettings env).globalIgnorePatterns }

/-- The history entry built in the success branch of the per-mapping loop
(the per-iteration `new Date().toISOString()` calls are modelled by the single
cycle clock value `env.now`). -/
def cycleEntry (env : OrchEnv) (m : Mapping) (r : MappingResult) : HistoryEntry :=
  { timestamp := env.now
    mappingId := m.id
    mappingName := m.name
    commitSha := r.commitSha
    commitMessage := r.commitMessage
    filesChanged := r.filesChanged
    commitUrl := buildCommitUrl env.gitRepoUrlEnv r.commitSha }

/-- The result the per-mapping loop records for one mapping, determined only by
that mapping's own synchronizer outcome. -/
def resultOf (env : OrchEnv) (m : Mapping) : CycleResult :=
  match env.sync (effectiveCfg env) m with
  | .error e => .error m.id m.name e
  | .ok none => .noChanges m.id m.name
  | .ok (some r) => .success (cycleEntry env m r)

/-- The `for (const mapping of mappings)` loop of `runFullBackup`: each
synchronizer call is wrapped in `try/catch`; a thrown error is recorded as that
mapping's error result and the loop continues; a success appends a history
entry. Returns the results in loop order and the updated history. -/
def processMappings (env : OrchEnv) :
    List Mapping → List HistoryEntry → List CycleResult × List HistoryEntry
  | [], hist => ([], hist)
  | m :: ms, hist =>
    match env.sync (effectiveCfg env) m with
    | .ok (some r) =>
      let entry := cycleEntry env m r
      let rest := processMappings env ms (addHistoryEntry entry hist)
      (.success entry :: rest.1, rest.2)
    | .ok none =>
      let rest := processMappings env ms hist
      (.noChanges m.id m.name :: rest.1, rest.2)
    | .error e =>
      let rest := processMappings env ms hist
      (.error m.id m.name e :: rest.1, rest.2)

/-- Whether a truthy mapping id was requested (`if (mappingId)` in the code:
`undefined` and the empty string are falsy). -/
def narrowRequested (mappingId : Option String) : Bool :=
  match mappingId with
  | some mid => mid != ""
  | none => false

/-- The enabled mappings selected for the cycle, after the optional narrowing
to a requested (truthy) mapping id. -/
def selectedMappings (env : OrchEnv) (mappingId : Option String) : List Mapping :=
  let enabled := env.mappings.filter (fun m => m.enabled)
  if narrowRequested mappingId then
    enabled.filter (fun m => m.id == mappingId.getD "")
  else enabled

/-- Embedding of `runFullBackup(mappingId)` from `server.js`. The guard is checked first
(`throw new Error('Backup already in progress')` before any other step), set,
and cleared in `finally` on every exit path: normal return, `prepareRepo`
failure, and the `Mapping not found or disabled` throw. Returns the thrown
error or the results array, the final state, and the orchestrator trace. -/
def runFullBackup (env : OrchEnv) (mappingId : Option String) (s : OrchState) :
    Except String (List CycleResult) × OrchState × List OrchAction :=
  if s.backupInProgress then
    (.error "Backup already in progress", s, [])
  else
    match env.prepareError with
    | some e =>
      (.error e, { s with backupInProgress := false }, [OrchAction.prepareRepo])
    | none =>
      let selected := selectedMappings env mappingId
      if narrowRequested mappingId && selected.isEmpty then
        (.error ("Mapping " ++ (mappingId.getD "") ++ " not found or disabled"),
         { s with backupInProgress := false }, [OrchAction.prepareRepo])
      else
        let looped := processMappings env selected s.history
        (.ok looped.1,
         { backupInProgress := false, history := looped.2 },
         OrchAction.prepareRepo ::
           (selected.map (fun m => OrchAction.syncMapping m.id) ++
             [OrchAction.housekeeping]))

/-! ## Concrete sample values used by witnesses -/

/-- A simple history entry for concrete instantiations. -/
def sampleEntry (mid : String) (n : Nat) : HistoryEntry :=
  { timestamp := toString n
    mappingId := mid
    mappingName := "sample"
    commitSha := "cafe"
    commitMessage := "msg"
    filesChanged := n
    commitUrl := none }

/-- A sample global configuration for concrete instantiations. -/
def sampleCfg : GlobalConfig :=
  { repoUrl := "https://github.com/o/r.git", branch := "main", repoDir := "/repo",
    userName := "u", userEmail := "e", backupIntervalHours := 6 }

/-- A trivial orchestrator environment for concrete instantiations. -/
def sampleOrchEnv : OrchEnv :=
  { cfg := sampleCfg, settings := {}, mappings := [],
    sync := fun _ _ => .ok none }

/-- An orchestrator environment with two enabled mappings, the first of which
fails to synchronize. -/
def sampleOrchEnvFail : OrchEnv :=
  { cfg := sampleCfg, settings := {},
    mappings :=
      [{ id := "a", name := "A", sourceDir := "/a", repoSubdir := "a", enabled := true },
       { id := "b", name := "B", sourceDir := "/b", repoSubdir := "b", enabled := true }],
    sync := fun _ m => if m.id == "a" then .error "rsync failed" else .ok none,
    now := "t" }

/-- The repository-URL shape exactly as claim C9 words it (refinement
reference, written from the spec, not from the source): the string *is* the
SSH shorthand form `git@github.com:owner/repo` (optional `.git` suffix), or it
is an HTTPS URL whose host is `github.com` with at least owner and repo path
segments. -/
def claimC9Shape (url : String) : Bool :=
  (sshMatchAt url.data).isSome ||
    (strStartsWith url "https://" &&
      (match parseURL url with
       | some u => u.host == "github.com" && decide (2 ≤ (githubParts u).length)
       | none => false))

/-- Claim C9 amended: the SSH-shorthand pattern may match at *any* position
(the regex is anchored at the end only, so arbitrary prefixes are accepted),
and the URL branch accepts any parseable URL whose hostname is `github.com`
(any scheme, not only HTTPS) with at least two non-empty path segments. -/
def recognizedGitHubShape (url : String) : Bool :=
  url != "" &&
    ((sshFind url.data).isSome ||
      (match parseURL url with
       | some u => u.host == "github.com" && decide (2 ≤ (githubParts u).length)
       | none => false))

/-- The actions of the staging/commit/push phase of a mapping sync. -/
def Action.isCommitPhase : Action → Bool
  | .gitAdd => true
  | .copilotInvoke => true
  | .gitCommit _ => true
  | .gitPush _ => true
  | _ => false

/-- The rsync argument vector exactly as claim C7 words the exclusion rule
set (refinement reference, written from the spec's words, not from the
source): the metadata directory and root `.gitignore` first, then **every**
pattern of `globalConfig.globalIgnorePatterns` in order, then **every**
pattern of `mapping.ignorePatterns` in order, plus the source `.gitignore`
as a supplementary exclusion source when present. -/
def specRsyncArgs (env : SyncEnv) (mapping : Mapping) (cfg : GlobalConfig) :
    List String :=
  ["-av", "--delete", "--exclude=.git", "--exclude=.gitignore"] ++
    (cfg.globalIgnorePatterns ++ mapping.ignorePatterns).map
      (fun pattern => "--exclude=" ++ pattern) ++
    (if env.sourceGitignoreExists then
      ["--exclude-from=" ++ pathJoin mapping.sourceDir ".gitignore"]
    else []) ++
    [mapping.sourceDir ++ "/", targetDirOf mapping cfg ++ "/"]

/-- Claim C7 amended: as `specRsyncArgs`, but only the non-empty (truthy)
patterns of each list are appended, global first then per-mapping. -/
def specRsyncArgsAmended (env : SyncEnv) (mapping : Mapping) (cfg : GlobalConfig) :
    List String :=
  ["-av", "--delete", "--exclude=.git", "--exclude=.gitignore"] ++
    ((cfg.globalIgnorePatterns ++ mapping.ignorePatterns).filter
        (fun p => p != "")).map (fun pattern => "--exclude=" ++ pattern) ++
    (if env.sourceGitignoreExists then
      ["--exclude-from=" ++ pathJoin mapping.sourceDir ".gitignore"]
    else []) ++
    [mapping.sourceDir ++ "/", targetDirOf mapping cfg ++ "/"]

/-- Environment for the C8 witness: an HTTPS repo URL plus a token. -/
def sampleEnvVars : EnvVars :=
  { gitRepoUrl := "https://github.com/me/repo.git", githubToken := "ghp0token" }

/-- The parse of the witness repo URL. -/
def sampleUrl : UrlObj :=
  { scheme := "https", username := "", password := "", host := "github.com",
    port := "", path := "/me/repo.git" }

/-- The global config the witness environment produces (token embedded as the
URL username). -/
def sampleTokenCfg : GlobalConfig :=
  { repoUrl := "https://ghp0token@github.com/me/repo.git", branch := "main",
    repoDir := "/repo", userName := "Git Backup Bot",
    userEmail := "gitbackup@example.com", backupIntervalHours := 6 }

/-! ## Theorems -/

theorem asciiLower_not_upper (c : Char) :
    upperChars.contains (asciiLower c) = false := by
  unfold asciiLower
  split
  all_goals try decide
  simp_all [upperChars]

theorem asciiLower_not_mem_upper (c : Char) : asciiLower c ∉ upperChars := by
  simpa using asciiLower_not_upper c

theorem asciiLower_eq_self (c : Char) (h : upperChars.contains c = false) :
    asciiLower c = c := by
  unfold asciiLower
  split
  all_goals try rfl
  all_goals simp_all [upperChars]

theorem map_asciiLower_of_not_upper (l : List Char)
    (h : l.all (fun c => !upperChars.contains c) = true) : l.map asciiLower = l := by
  induction l with
  | nil => rfl
  | cons c cs ih =>
    simp only [List.all_cons, Bool.and_eq_true, Bool.not_eq_true'] at h
    simp [asciiLower_eq_self c h.1, ih h.2]

theorem map_asciiLower_not_upper (l : List Char) :
    (l.map asciiLower).all (fun c => !upperChars.contains c) = true := by
  rw [List.all_eq_true]
  intro x hx
  obtain ⟨y, hy, rfl⟩ := List.mem_map.1 hx
  simpa using asciiLower_not_upper y

theorem takeWhile_append_break (p : Char → Bool) (a b : List Char)
    (ha : a.all p = true) (hb : ∀ c ∈ b.take 1, p c = false) :
    (a ++ b).takeWhile p = a := by
  induction a with
  | nil =>
    cases b with
    | nil => rfl
    | cons c cs =>
      simp only [List.nil_append, List.takeWhile_cons]
      rw [hb c (by simp)]
      rfl
  | cons x xs ih =>
    simp only [List.all_cons, Bool.and_eq_true] at ha
    simp [List.takeWhile_cons, ha.1, ih ha.2]

theorem digitOkChar (c : Char) (h : c.isDigit = true) :
    (c != '@' && c != ':' && c != '/' && c != '?' && c != '#') = true := by
  simp only [Bool.and_eq_true, bne_iff_ne, ne_eq]
  refine ⟨⟨⟨⟨?_, ?_⟩, ?_⟩, ?_⟩, ?_⟩ <;> rintro rfl <;> exact absurd h (by decide)

theorem allWeaken {p q : Char → Bool} (l : List Char) (h : l.all p = true)
    (imp : ∀ c, p c = true → q c = true) : l.all q = true := by
  rw [List.all_eq_true] at h ⊢
  exact fun x hx => imp x (h x hx)

/-- Split `x ++ (":" ++ y)?` back into `(x, y)` at the first colon, the way
`parseAuthority` does for userinfo and host-port. -/
theorem splitColon_roundtrip (x y : List Char)
    (hx : x.all (fun c => c != ':') = true) :
    ((x ++ (if y.isEmpty then [] else ':' :: y)).takeWhile (fun c => c != ':')) = x ∧
    ((if ((x ++ (if y.isEmpty then [] else ':' :: y)).takeWhile
          (fun c => c != ':')).length =
        (x ++ (if y.isEmpty then [] else ':' :: y)).length then ([] : List Char)
      else (x ++ (if y.isEmpty then [] else ':' :: y)).drop
        (((x ++ (if y.isEmpty then [] else ':' :: y)).takeWhile
          (fun c => c != ':')).length + 1))) = y := by
  cases y with
  | nil =>
    have ht : (x ++ (if ([] : List Char).isEmpty then [] else ':' :: [])).takeWhile
        (fun c => c != ':') = x := by
      simp only [List.isEmpty_nil, if_true, List.append_nil]
      rw [List.takeWhile_eq_self_iff.2]
      intro a ha
      exact (List.all_eq_true.1 hx) a ha
    refine ⟨ht, ?_⟩
    rw [ht]
    simp
  | cons c ys =>
    have ht : (x ++ (if (c :: ys).isEmpty then [] else ':' :: c :: ys)).takeWhile
        (fun ch => ch != ':') = x := by
      simp only [List.isEmpty_cons, if_false, Bool.false_eq_true]
      exact takeWhile_append_break _ x (':' :: c :: ys) hx (by intro a ha; simp at ha; simp [ha])
    refine ⟨ht, ?_⟩
    rw [ht]
    have hlen : (x ++ (if (c :: ys).isEmpty then [] else ':' :: c :: ys)).length =
        x.length + (c :: ys).length + 1 := by
      simp [List.length_append]
      omega
    have hne : ¬ x.length = (x ++ (if (c :: ys).isEmpty then [] else ':' :: c :: ys)).length := by
      rw [hlen]
      omega
    rw [if_neg hne]
    have : x ++ (if (c :: ys).isEmpty then [] else ':' :: c :: ys) =
        (x ++ [':']) ++ c :: ys := by
      simp
    rw [this]
    have hlx : x.length + 1 = (x ++ [':']).length := by simp
    rw [hlx, List.drop_left]

theorem parseAuthority_roundtrip (un pw host pt : List Char)
    (hu : un.all okUserChar = true) (hpw : pw.all okPassChar = true)
    (hh : host.isEmpty = false) (hhc : host.all okHostChar = true)
    (hpt : pt.all Char.isDigit = true) :
    parseAuthority (userinfoChars un pw ++ host ++ portChars pt) =
      some (un, pw, host, pt) := by
  have hunColon : un.all (fun c => c != ':') = true :=
    allWeaken un hu (fun c hc => by
      simp only [okUserChar, Bool.and_eq_true] at hc
      exact hc.1.1.1.2)
  have hhostColon : host.all (fun c => c != ':') = true :=
    allWeaken host hhc (fun c hc => by
      simp only [okHostChar, Bool.and_eq_true] at hc
      exact hc.1.1.1.1.2)
  have hhostNoUpper : host.all (fun c => !upperChars.contains c) = true :=
    allWeaken host hhc (fun c hc => by
      simp only [okHostChar, Bool.and_eq_true] at hc
      exact hc.2)
  have hsplitHost := splitColon_roundtrip host pt hhostColon
  rw [show (if pt.isEmpty then ([] : List Char) else ':' :: pt) = portChars pt from rfl]
    at hsplitHost
  have hpNoAt : (host ++ portChars pt).all (fun c => c != '@') = true := by
    rw [List.all_append, Bool.and_eq_true]
    refine ⟨?_, ?_⟩
    · exact allWeaken host hhc (fun c hc => by
        simp only [okHostChar, Bool.and_eq_true] at hc
        exact hc.1.1.1.1.1)
    · unfold portChars
      cases pt with
      | nil => rfl
      | cons c cs =>
        simp only [List.isEmpty_cons, if_false, Bool.false_eq_true]
        rw [List.all_cons, Bool.and_eq_true]
        refine ⟨by decide, ?_⟩
        exact allWeaken (c :: cs) hpt (fun d hd => by
          have hne := digitOkChar d hd
          simp only [Bool.and_eq_true] at hne
          exact hne.1.1.1.1)
  have hmapHost := map_asciiLower_of_not_upper host hhostNoUpper
  by_cases hcred : (un.isEmpty && pw.isEmpty) = true
  · -- no userinfo section
    simp only [Bool.and_eq_true] at hcred
    have hunNil : un = [] := by
      cases un with
      | nil => rfl
      | cons a as => exact absurd hcred.1 (by simp)
    have hpwNil : pw = [] := by
      cases pw with
      | nil => rfl
      | cons a as => exact absurd hcred.2 (by simp)
    have hui : userinfoChars un pw = [] := by
      unfold userinfoChars
      rw [hunNil, hpwNil]
      rfl
    rw [hui, List.nil_append]
    simp only [parseAuthority]
    have htw : (host ++ portChars pt).reverse.takeWhile (fun c => c != '@') =
        (host ++ portChars pt).reverse := by
      rw [List.takeWhile_eq_self_iff]
      intro a ha
      rw [List.mem_reverse] at ha
      exact (List.all_eq_true.1 hpNoAt) a ha
    rw [htw, List.reverse_reverse]
    have hdrop : ((host ++ portChars pt).reverse).drop
        ((host ++ portChars pt).reverse.length + 1) = [] :=
      List.drop_eq_nil_of_le (by omega)
    rw [hdrop]
    rw [hsplitHost.2, hsplitHost.1]
    simp only [List.reverse_nil, List.takeWhile_nil, List.length_nil, if_true]
    rw [hh, hpt]
    simp only [Bool.not_true, Bool.false_eq_true, if_false, hmapHost, hunNil, hpwNil]
  · -- userinfo section present
    have hcredF : (un.isEmpty && pw.isEmpty) = false := by
      cases hb : (un.isEmpty && pw.isEmpty) with
      | false => rfl
      | true => exact absurd hb hcred
    have hui : userinfoChars un pw =
        (un ++ (if pw.isEmpty then [] else ':' :: pw)) ++ ['@'] := by
      unfold userinfoChars
      rw [hcredF]
      rfl
    have hA : userinfoChars un pw ++ host ++ portChars pt =
        (un ++ (if pw.isEmpty then [] else ':' :: pw)) ++
          ('@' :: (host ++ portChars pt)) := by
      rw [hui]
      simp [List.append_assoc]
    rw [hA]
    simp only [parseAuthority]
    have huiNoColonAt : (un ++ (if pw.isEmpty then [] else ':' :: pw)).all
        (fun c => c != '@') = true := by
      rw [List.all_append, Bool.and_eq_true]
      refine ⟨?_, ?_⟩
      · exact allWeaken un hu (fun c hc => by
          simp only [okUserChar, Bool.and_eq_true] at hc
          exact hc.1.1.1.1)
      · cases pw with
        | nil => simp
        | cons a as =>
          simp only [List.isEmpty_cons, if_false, Bool.false_eq_true]
          rw [List.all_cons, Bool.and_eq_true]
          refine ⟨by decide, ?_⟩
          exact allWeaken (a :: as) hpw (fun d hd => by
            simp only [okPassChar, Bool.and_eq_true] at hd
            exact hd.1.1.1)
    have hrev : ((un ++ (if pw.isEmpty then [] else ':' :: pw)) ++
        ('@' :: (host ++ portChars pt))).reverse =
        (host ++ portChars pt).reverse ++
          ('@' :: (un ++ (if pw.isEmpty then [] else ':' :: pw)).reverse) := by
      rw [List.reverse_append, List.reverse_cons]
      simp [List.append_assoc]
    rw [hrev]
    have htw : ((host ++ portChars pt).reverse ++
        ('@' :: (un ++ (if pw.isEmpty then [] else ':' :: pw)).reverse)).takeWhile
          (fun c => c != '@') = (host ++ portChars pt).reverse := by
      refine takeWhile_append_break _ _ _ ?_ ?_
      · rw [List.all_reverse]
        exact hpNoAt
      · intro c hcm
        simp only [List.take_succ_cons, List.take_zero, List.mem_singleton] at hcm
        subst hcm
        decide
    rw [htw, List.reverse_reverse]
    have hdrop : ((host ++ portChars pt).reverse ++
        ('@' :: (un ++ (if pw.isEmpty then [] else ':' :: pw)).reverse)).drop
          ((host ++ portChars pt).reverse.length + 1) =
        (un ++ (if pw.isEmpty then [] else ':' :: pw)).reverse := by
      rw [show ('@' :: (un ++ (if pw.isEmpty then [] else ':' :: pw)).reverse) =
        ['@'] ++ (un ++ (if pw.isEmpty then [] else ':' :: pw)).reverse from rfl]
      rw [← List.append_assoc]
      rw [show (host ++ portChars pt).reverse.length + 1 =
        ((host ++ portChars pt).reverse ++ ['@']).length by simp; omega]
      exact List.drop_left _ _
    rw [hdrop, List.reverse_reverse]
    have hsplitU := splitColon_roundtrip un pw hunColon
    rw [hsplitU.2, hsplitU.1, hsplitHost.2, hsplitHost.1]
    rw [hh, hpt]
    simp only [Bool.not_true, Bool.false_eq_true, if_false, hmapHost]

theorem parseURL_serialize (u : UrlObj) (h : u.WF = true) :
    parseURL (UrlObj.serialize u) = some u := by
  obtain ⟨sc, un, pw, ho, po, pa⟩ := u
  simp only [UrlObj.WF, Bool.and_eq_true] at h
  obtain ⟨⟨⟨⟨⟨⟨⟨⟨hs1, hs2⟩, hu⟩, hpw⟩, hh⟩, hhc⟩, hpt⟩, hp1⟩, hp2⟩ := h
  have hdata : (UrlObj.serialize ⟨sc, un, pw, ho, po, pa⟩).data =
      sc.data ++ ':' :: '/' :: '/' ::
        (userinfoChars un.data pw.data ++ ho.data ++ portChars po.data ++ pa.data) := rfl
  have hschemeAll : sc.data.all isSchemeChar = true :=
    allWeaken _ hs2 (fun c hc => by
      simp only [Bool.and_eq_true] at hc
      exact hc.1)
  have hschemeNoUpper : sc.data.all (fun c => !upperChars.contains c) = true :=
    allWeaken _ hs2 (fun c hc => by
      simp only [Bool.and_eq_true] at hc
      exact hc.2)
  simp only [parseURL]
  rw [hdata]
  have htw : (sc.data ++ ':' :: '/' :: '/' ::
      (userinfoChars un.data pw.data ++ ho.data ++ portChars po.data ++
        pa.data)).takeWhile isSchemeChar = sc.data := by
    refine takeWhile_append_break _ _ _ hschemeAll ?_
    intro c hcm
    simp only [List.take_succ_cons, List.take_zero, List.mem_singleton] at hcm
    subst hcm
    decide
  rw [htw, List.drop_left]
  have hex : ∃ c cs, sc.data = c :: cs := by
    cases hval : sc.data with
    | nil =>
      rw [hval] at hs1
      exact absurd hs1 (by decide)
    | cons c cs => exact ⟨c, cs, rfl⟩
  obtain ⟨c, cs, hsd⟩ := hex
  have hs1c : isSchemeStart c = true := by
    rw [hsd] at hs1
    exact hs1
  rw [hsd]
  simp only [hs1c, Bool.not_true, Bool.false_eq_true, if_false]
  -- the `://` shape matches
  have hAall : ((userinfoChars un.data pw.data ++ ho.data ++ portChars po.data)).all
      (fun ch => ch != '/' && ch != '?' && ch != '#') = true := by
    rw [List.all_append, Bool.and_eq_true]
    constructor
    · rw [List.all_append, Bool.and_eq_true]
      constructor
      · unfold userinfoChars
        by_cases hc0 : (un.data.isEmpty && pw.data.isEmpty) = true
        · rw [if_pos hc0]
          rfl
        · rw [if_neg hc0, List.all_append, Bool.and_eq_true]
          constructor
          · rw [List.all_append, Bool.and_eq_true]
            constructor
            · exact allWeaken _ hu (fun d hd => by
                simp only [okUserChar, Bool.and_eq_true] at hd
                exact Bool.and_eq_true _ _ ▸
                  ⟨Bool.and_eq_true _ _ ▸ ⟨hd.1.1.2, hd.1.2⟩, hd.2⟩)
            · cases hpd : pw.data with
              | nil => simp
              | cons a as =>
                simp only [List.isEmpty_cons, if_false, Bool.false_eq_true]
                rw [List.all_cons, Bool.and_eq_true]
                refine ⟨by decide, ?_⟩
                rw [← hpd]
                exact allWeaken _ hpw (fun d hd => by
                  simp only [okPassChar, Bool.and_eq_true] at hd
                  exact Bool.and_eq_true _ _ ▸
                    ⟨Bool.and_eq_true _ _ ▸ ⟨hd.1.1.2, hd.1.2⟩, hd.2⟩)
          · decide
      · exact allWeaken _ hhc (fun d hd => by
          simp only [okHostChar, Bool.and_eq_true] at hd
          exact Bool.and_eq_true _ _ ▸
            ⟨Bool.and_eq_true _ _ ▸ ⟨hd.1.1.1.2, hd.1.1.2⟩, hd.1.2⟩)
    · unfold portChars
      cases hpod : po.data with
      | nil => rfl
      | cons a as =>
        simp only [List.isEmpty_cons, if_false, Bool.false_eq_true]
        rw [List.all_cons, Bool.and_eq_true]
        refine ⟨by decide, ?_⟩
        rw [← hpod]
        exact allWeaken po.data hpt (fun d hd => by
          have hne := digitOkChar d hd
          simp only [Bool.and_eq_true] at hne
          exact Bool.and_eq_true _ _ ▸
            ⟨Bool.and_eq_true _ _ ▸ ⟨hne.1.1.2, hne.1.2⟩, hne.2⟩)
  have htwA : (userinfoChars un.data pw.data ++ ho.data ++ portChars po.data ++
      pa.data).takeWhile (fun ch => ch != '/' && ch != '?' && ch != '#') =
      userinfoChars un.data pw.data ++ ho.data ++ portChars po.data := by
    refine takeWhile_append_break _ _ _ hAall ?_
    intro d hdm
    cases hpad : pa.data with
    | nil =>
      rw [hpad] at hdm
      simp at hdm
    | cons x xs =>
      rw [hpad] at hdm
      simp only [List.take_succ_cons, List.take_zero, List.mem_singleton] at hdm
      rw [hpad] at hp1
      have hx : x = '/' := beq_iff_eq.1 hp1
      rw [hdm, hx]
      decide
  rw [htwA, List.drop_left]
  have hpath : pa.data.takeWhile (fun ch => ch != '?' && ch != '#') = pa.data :=
    List.takeWhile_eq_self_iff.2 (fun x hx => (List.all_eq_true.1 hp2) x hx)
  rw [hpath]
  have hhF : ho.data.isEmpty = false := by
    revert hh
    cases ho.data.isEmpty <;> simp
  rw [parseAuthority_roundtrip un.data pw.data ho.data po.data hu hpw hhF hhc hpt]
  have hscLower : (c :: cs).map asciiLower = c :: cs := by
    rw [← hsd]
    exact map_asciiLower_of_not_upper _ hschemeNoUpper
  rw [hscLower, ← hsd]

theorem all_takeWhile (p : Char → Bool) (l : List Char) :
    (l.takeWhile p).all p = true := by
  rw [List.all_eq_true]
  intro x hx
  exact List.mem_takeWhile_imp hx

theorem mem_takeWhile_mem (p : Char → Bool) (l : List Char) {x : Char}
    (hx : x ∈ l.takeWhile p) : x ∈ l :=
  (List.takeWhile_prefix p).subset hx

theorem dropWhile_head_fails (p : Char → Bool) (l : List Char) :
    ∀ c ∈ (l.dropWhile p).take 1, p c = false := by
  induction l with
  | nil => intro c hc; simp at hc
  | cons x xs ih =>
    intro c hc
    by_cases hx : p x
    · rw [List.dropWhile_cons_of_pos hx] at hc
      exact ih c hc
    · rw [List.dropWhile_cons_of_neg hx] at hc
      simp only [List.take_succ_cons, List.take_zero, List.mem_singleton] at hc
      subst hc
      exact Bool.not_eq_true _ ▸ hx

theorem asciiLower_okHost (c : Char)
    (h : (c != '@' && c != ':' && c != '/' && c != '?' && c != '#') = true) :
    okHostChar (asciiLower c) = true := by
  unfold asciiLower
  split
  all_goals try decide
  simp_all [okHostChar, upperChars]

/-- What `parseAuthority` guarantees about its outputs, given that the
authority came from a `takeWhile` that excluded `/`, `?`, `#`: the hostname is
non-empty and well-formed and the port is numeric. -/
theorem parseAuthority_props (a : List Char)
    (ha : a.all (fun ch => ch != '/' && ch != '?' && ch != '#') = true)
    (un pw host pt : List Char)
    (h : parseAuthority a = some (un, pw, host, pt)) :
    host.isEmpty = false ∧ host.all okHostChar = true ∧
      pt.all Char.isDigit = true := by
  simp only [parseAuthority] at h
  by_cases hE : ((a.reverse.takeWhile (fun c => c != '@')).reverse.takeWhile
      (fun c => c != ':')).isEmpty = true
  · rw [if_pos hE] at h
    exact absurd h (by simp)
  · rw [if_neg hE] at h
    by_cases hD : (!(if ((a.reverse.takeWhile (fun c => c != '@')).reverse.takeWhile
          (fun c => c != ':')).length =
          (a.reverse.takeWhile (fun c => c != '@')).reverse.length then ([] : List Char)
        else (a.reverse.takeWhile (fun c => c != '@')).reverse.drop
          (((a.reverse.takeWhile (fun c => c != '@')).reverse.takeWhile
            (fun c => c != ':')).length + 1)).all Char.isDigit) = true
    · rw [if_pos hD] at h
      exact absurd h (by simp)
    · rw [if_neg hD] at h
      simp only [Option.some.injEq, Prod.mk.injEq] at h
      obtain ⟨-, -, hhost, hpt2⟩ := h
      have hDtrue : (if ((a.reverse.takeWhile (fun c => c != '@')).reverse.takeWhile
            (fun c => c != ':')).length =
            (a.reverse.takeWhile (fun c => c != '@')).reverse.length then ([] : List Char)
          else (a.reverse.takeWhile (fun c => c != '@')).reverse.drop
            (((a.reverse.takeWhile (fun c => c != '@')).reverse.takeWhile
              (fun c => c != ':')).length + 1)).all Char.isDigit = true := by
        revert hD
        cases hb : (if ((a.reverse.takeWhile (fun c => c != '@')).reverse.takeWhile
            (fun c => c != ':')).length =
            (a.reverse.takeWhile (fun c => c != '@')).reverse.length then ([] : List Char)
          else (a.reverse.takeWhile (fun c => c != '@')).reverse.drop
            (((a.reverse.takeWhile (fun c => c != '@')).reverse.takeWhile
              (fun c => c != ':')).length + 1)).all Char.isDigit <;> simp
      have hmemOk : ∀ c ∈ (a.reverse.takeWhile (fun c => c != '@')).reverse.takeWhile
          (fun c => c != ':'),
          (c != '@' && c != ':' && c != '/' && c != '?' && c != '#') = true := by
        intro d hd
        have hdColon : (d != ':') = true := by simpa using List.mem_takeWhile_imp hd
        have hdHp : d ∈ (a.reverse.takeWhile (fun c => c != '@')).reverse :=
          mem_takeWhile_mem _ _ hd
        rw [List.mem_reverse] at hdHp
        have hdAt : (d != '@') = true := by simpa using List.mem_takeWhile_imp hdHp
        have hdA : d ∈ a := by
          have := mem_takeWhile_mem _ _ hdHp
          rw [List.mem_reverse] at this
          exact this
        have hdTriple := (List.all_eq_true.1 ha) d hdA
        simp only [Bool.and_eq_true] at hdTriple ⊢
        exact ⟨⟨⟨⟨hdAt, hdColon⟩, hdTriple.1.1⟩, hdTriple.1.2⟩, hdTriple.2⟩
      refine ⟨?_, ?_, ?_⟩
      · rw [← hhost]
        cases hcl : (a.reverse.takeWhile (fun c => c != '@')).reverse.takeWhile
            (fun c => c != ':') with
        | nil => rw [hcl] at hE; exact absurd rfl hE
        | cons x xs => simp
      · rw [← hhost]
        rw [List.all_eq_true]
        intro y hy
        obtain ⟨z, hz, rfl⟩ := List.mem_map.1 hy
        exact asciiLower_okHost z (hmemOk z hz)
      · rw [← hpt2]
        exact hDtrue

theorem asciiLower_alpha (c : Char) (h : c.isAlpha = true) :
    (asciiLower c).isAlpha = true := by
  unfold asciiLower
  split
  all_goals try decide
  exact h

theorem asciiLower_schemeOk (c : Char) (h : isSchemeChar c = true) :
    (isSchemeChar (asciiLower c) && !upperChars.contains (asciiLower c)) = true := by
  unfold asciiLower
  split
  all_goals try decide
  simp_all [upperChars]

theorem drop_length_takeWhile (p : Char → Bool) (l : List Char) :
    l.drop (l.takeWhile p).length = l.dropWhile p := by
  induction l with
  | nil => rfl
  | cons x xs ih =>
    by_cases hx : p x
    · rw [List.takeWhile_cons_of_pos hx, List.dropWhile_cons_of_pos hx]
      simpa using ih
    · rw [List.takeWhile_cons_of_neg hx, List.dropWhile_cons_of_neg hx]
      rfl

/-- Overwriting the credential components of any `parseURL` output with
well-formed values yields a well-formed URL object (all other components of a
parse result are already canonical). -/
theorem parseURL_wf_overwrite (s : String) (u : UrlObj) (hp : parseURL s = some u)
    (t q : String) (ht : t.data.all okUserChar = true)
    (hq : q.data.all okPassChar = true) :
    UrlObj.WF { u with username := t, password := q } = true := by
  simp only [parseURL] at hp
  split at hp
  · exact absurd hp (by simp)
  · rename_i c cs hsc
    split at hp
    · exact absurd hp (by simp)
    · rename_i hstartNN
      split at hp
      · rename_i rest₂ hrest
        split at hp
        · rename_i username password host port hpa
          have hueq := Option.some.inj hp
          subst hueq
          have hstart : isSchemeStart c = true := by
            revert hstartNN
            cases hb : isSchemeStart c <;> simp
          have hschemeAll : (c :: cs).all isSchemeChar = true := by
            rw [← hsc]
            exact all_takeWhile _ _
          have hprops := parseAuthority_props
            (rest₂.takeWhile (fun ch => ch != '/' && ch != '?' && ch != '#'))
            (all_takeWhile _ _) username password host port hpa
          simp only [UrlObj.WF, Bool.and_eq_true]
          rw [hsc]
          refine ⟨⟨⟨⟨⟨⟨⟨⟨?_, ?_⟩, ?_⟩, ?_⟩, ?_⟩, ?_⟩, ?_⟩, ?_⟩, ?_⟩
          · -- scheme head
            simp only [List.map_cons]
            exact asciiLower_alpha c hstart
          · -- scheme charset
            rw [List.all_eq_true]
            intro y hy
            obtain ⟨z, hz, rfl⟩ := List.mem_map.1 hy
            exact asciiLower_schemeOk z ((List.all_eq_true.1 hschemeAll) z hz)
          · exact ht
          · exact hq
          · -- host nonempty
            simp only [hprops.1, Bool.not_false]
          · exact hprops.2.1
          · exact hprops.2.2
          · -- path starts with '/' or is empty
            rw [drop_length_takeWhile]
            cases hcl : rest₂.dropWhile (fun ch => ch != '/' && ch != '?' && ch != '#') with
            | nil => rfl
            | cons y ys =>
              have hyfail : (y != '/' && y != '?' && y != '#') = false := by
                have hdf := dropWhile_head_fails
                  (fun ch => ch != '/' && ch != '?' && ch != '#') rest₂ y
                rw [hcl] at hdf
                exact hdf (by simp)
              have hy3 : y = '/' ∨ y = '?' ∨ y = '#' := by
                by_cases a1 : y = '/'
                · exact Or.inl a1
                by_cases a2 : y = '?'
                · exact Or.inr (Or.inl a2)
                by_cases a3 : y = '#'
                · exact Or.inr (Or.inr a3)
                exfalso
                have htrue : (y != '/' && y != '?' && y != '#') = true := by
                  simp only [Bool.and_eq_true, bne_iff_ne, ne_eq]
                  exact ⟨⟨a1, a2⟩, a3⟩
                rw [htrue] at hyfail
                exact absurd hyfail (by decide)
              rcases hy3 with rfl | rfl | rfl
              · rw [List.takeWhile_cons_of_pos (by decide)]
                rfl
              · rw [List.takeWhile_cons_of_neg (by decide)]
              · rw [List.takeWhile_cons_of_neg (by decide)]
          · exact all_takeWhile _ _
        · exact absurd hp (by simp)
      · exact absurd hp (by simp)

/-- Lemma: `safeRepoUrl` applied to the configured repo URL (with or without the
embedded token) yields exactly the serialization of the parsed URL with empty
username and password. -/
theorem safeRepoUrl_of_config (env : EnvVars) (u : UrlObj)
    (hparse : parseURL env.gitRepoUrl = some u)
    (htok : env.githubToken.data.all okUserChar = true)
    (cfg : GlobalConfig) (hcfg : getGlobalConfig env = .ok cfg) :
    safeRepoUrl cfg.repoUrl =
      UrlObj.serialize { u with username := "", password := "" } := by
  unfold getGlobalConfig at hcfg
  by_cases h0 : env.gitRepoUrl = ""
  · rw [if_pos h0] at hcfg
    exact absurd hcfg (by simp)
  · rw [if_neg h0] at hcfg
    by_cases hemb : (strStartsWith env.gitRepoUrl "https://" &&
        env.githubToken != "") = true
    · rw [if_pos hemb, hparse] at hcfg
      simp only [Except.map, Except.ok.injEq] at hcfg
      have hrepo : cfg.repoUrl =
          UrlObj.serialize { u with username := env.githubToken, password := "" } := by
        rw [← hcfg]
      rw [hrepo]
      unfold safeRepoUrl
      rw [parseURL_serialize _ (parseURL_wf_overwrite env.gitRepoUrl u hparse
        env.githubToken "" htok rfl)]
    · rw [if_neg hemb] at hcfg
      simp only [Except.map, Except.ok.injEq] at hcfg
      have hrepo : cfg.repoUrl = env.gitRepoUrl := by
        rw [← hcfg]
      rw [hrepo]
      unfold safeRepoUrl
      rw [hparse]

/-- Claim C8: For every configured repository URL, the URL exposed through the
status interface has its username and password components stripped: it equals
the serialization of the parsed URL with both credential components empty (and
re-parses to a URL object with empty username and password), and the exposed
payload URL does not depend on the embedded token at all — any two
configurations differing only in the `GITHUB_TOKEN` produce the same exposed
URL. -/
theorem status_strips_credentials (env : EnvVars) (u : UrlObj)
    (hparse : parseURL env.gitRepoUrl = some u)
    (htok : env.githubToken.data.all okUserChar = true)
    (cfg : GlobalConfig) (hcfg : getGlobalConfig env = .ok cfg)
    (flag : Bool) (basePath : String) :
    (statusResponse cfg flag basePath).repoUrl =
      UrlObj.serialize { u with username := "", password := "" } ∧
    parseURL (statusResponse cfg flag basePath).repoUrl =
      some { u with username := "", password := "" } ∧
    (∀ env' cfg', env'.gitRepoUrl = env.gitRepoUrl →
      env'.githubToken.data.all okUserChar = true →
      getGlobalConfig env' = .ok cfg' →
      (statusResponse cfg' flag basePath).repoUrl =
        (statusResponse cfg flag basePath).repoUrl) := by
  have h1 : (statusResponse cfg flag basePath).repoUrl =
      UrlObj.serialize { u with username := "", password := "" } := by
    show safeRepoUrl cfg.repoUrl = _
    exact safeRepoUrl_of_config env u hparse htok cfg hcfg
  refine ⟨h1, ?_, ?_⟩
  · rw [h1]
    exact parseURL_serialize _ (parseURL_wf_overwrite env.gitRepoUrl u hparse
      "" "" rfl rfl)
  · intro env' cfg' hs htok' hcfg'
    have h2 : (statusResponse cfg' flag basePath).repoUrl =
        UrlObj.serialize { u with username := "", password := "" } := by
      show safeRepoUrl cfg'.repoUrl = _
      refine safeRepoUrl_of_config env' u ?_ htok' cfg' hcfg'
      rw [hs]
      exact hparse
    rw [h1, h2]

/-- Witness for C8 at a concrete https URL with an embedded token: the exposed
status URL is the credential-free URL. -/
theorem status_strips_credentials_witness :
    (statusResponse sampleTokenCfg false "").repoUrl =
      "https://github.com/me/repo.git" := by
  have h := (status_strips_credentials sampleEnvVars sampleUrl (by decide)
    (by decide) sampleTokenCfg rfl false "").1
  rw [h]
  decide



/-- The results component of the per-mapping loop is a pure map over the
mapping list: the history accumulator threaded through the loop never affects
which result is recorded for a mapping. -/
theorem processMappings_fst (env : OrchEnv) (ms : List Mapping)
    (hist : List HistoryEntry) :
    (processMappings env ms hist).1 = ms.map (resultOf env) := by
  induction ms generalizing hist with
  | nil => rfl
  | cons m ms ih =>
    simp only [processMappings, List.map_cons]
    cases h : env.sync (effectiveCfg env) m with
    | error e => simp [h, ih, resultOf]
    | ok o =>
      cases o with
      | none => simp [h, ih, resultOf]
      | some r => simp [h, ih, resultOf]

theorem resultOf_mappingId (env : OrchEnv) (m : Mapping) :
    (resultOf env m).mappingId = m.id := by
  unfold resultOf
  cases h : env.sync (effectiveCfg env) m with
  | error e => rfl
  | ok o => cases o <;> rfl

/-- Claim C1: The `backupInProgress` guard gives mutual exclusion: a cycle
request made while a cycle is running is rejected immediately with the
conflict error, with the state untouched and no orchestrator action performed
(no repository mutation); and starting from an idle state, the guard is false
again after the cycle on every exit path (normal return, `prepareRepo`
failure, mapping-not-found throw), so a later request is never rejected
because of an earlier failed cycle. -/
theorem backup_guard_mutual_exclusion (env : OrchEnv) (mappingId : Option String)
    (s : OrchState) :
    (s.backupInProgress = true →
      runFullBackup env mappingId s = (.error "Backup already in progress", s, [])) ∧
    (s.backupInProgress = false →
      (runFullBackup env mappingId s).2.1.backupInProgress = false) := by
  constructor
  · intro h
    unfold runFullBackup
    simp [h]
  · intro h
    unfold runFullBackup
    simp only [h, Bool.false_eq_true, if_false]
    rcases env.prepareError with _ | e
    · simp only []
      split <;> rfl
    · rfl

/-- Witness for C1: a busy state rejects with the conflict error and does
nothing; an idle state ends with the guard cleared. -/
theorem backup_guard_mutual_exclusion_witness :
    runFullBackup sampleOrchEnv none { backupInProgress := true, history := [] } =
      (.error "Backup already in progress",
       { backupInProgress := true, history := [] }, []) ∧
    (runFullBackup sampleOrchEnv none
        { backupInProgress := false, history := [] }).2.1.backupInProgress = false :=
  ⟨(backup_guard_mutual_exclusion sampleOrchEnv none
      { backupInProgress := true, history := [] }).1 rfl,
   (backup_guard_mutual_exclusion sampleOrchEnv none
      { backupInProgress := false, history := [] }).2 rfl⟩

/-- Claim C2: A cycle that got past repository preparation returns exactly one
result entry per selected mapping, in selection order, each determined solely
by that mapping's own synchronizer outcome: a thrown error is recorded as that
mapping's error result and every remaining mapping is still attempted
(the result list is the full map over the selected mappings). -/
theorem cycle_one_result_per_mapping (env : OrchEnv) (mappingId : Option String)
    (s : OrchState) (hflag : s.backupInProgress = false)
    (hprep : env.prepareError = none)
    (hsel : narrowRequested mappingId = false ∨ selectedMappings env mappingId ≠ []) :
    (runFullBackup env mappingId s).1 =
      .ok ((selectedMappings env mappingId).map (resultOf env)) ∧
    (∀ m, (resultOf env m).mappingId = m.id) ∧
    (∀ m e, env.sync (effectiveCfg env) m = .error e →
      resultOf env m = .error m.id m.name e) ∧
    (∀ m, env.sync (effectiveCfg env) m = .ok none →
      resultOf env m = .noChanges m.id m.name) ∧
    (∀ m r, env.sync (effectiveCfg env) m = .ok (some r) →
      resultOf env m = .success (cycleEntry env m r)) := by
  refine ⟨?_, resultOf_mappingId env, ?_, ?_, ?_⟩
  · have hcond : (narrowRequested mappingId &&
        (selectedMappings env mappingId).isEmpty) = false := by
      rcases hsel with hsel | hsel
      · simp [hsel]
      · simp [List.isEmpty_iff, hsel]
    unfold runFullBackup
    simp only [hflag, Bool.false_eq_true, if_false, hprep, hcond]
    simp [processMappings_fst]
  · intro m e h
    simp [resultOf, h]
  · intro m h
    simp [resultOf, h]
  · intro m r h
    simp [resultOf, h]

/-- Witness for C2: of two enabled mappings the first throws, yet the cycle
returns one entry per mapping in order — the first an error, the second a
no-change result. -/
theorem cycle_one_result_per_mapping_witness :
    (runFullBackup sampleOrchEnvFail none
        { backupInProgress := false, history := [] }).1 =
      .ok [.error "a" "A" "rsync failed", .noChanges "b" "B"] := by
  have h := (cycle_one_result_per_mapping sampleOrchEnvFail none
    { backupInProgress := false, history := [] } rfl rfl (Or.inl rfl)).1
  rw [h]
  rfl

/-- Claim C9, counterexample: `"xgit@github.com:owner/repo"` is neither the SSH
shorthand form nor an HTTPS GitHub URL, yet `buildCommitUrl` derives a commit
URL from it (the regex is not anchored at the start): the claim's
"returns null for every other input" fails at this input. -/
theorem buildCommitUrl_counterexample :
    buildCommitUrl "xgit@github.com:owner/repo" "abc" =
      some "https://github.com/owner/repo/commit/abc" ∧
    claimC9Shape "xgit@github.com:owner/repo" = false := by
  constructor
  · rfl
  · decide

/-- Claim C9, amended: `buildCommitUrl` returns a commit URL exactly when the
end-anchored SSH pattern matches at some position of the (non-empty) string,
or the string parses as a URL (any scheme) whose hostname is `github.com`
with at least two non-empty path segments; it returns null for every other
input, including empty and unparseable URLs. -/
theorem buildCommitUrl_iff (url sha : String) :
    (buildCommitUrl url sha).isSome = recognizedGitHubShape url := by
  unfold buildCommitUrl parseRepoUrl recognizedGitHubShape
  by_cases hurl : url = ""
  · simp [hurl]
  · simp only [hurl, if_false, bne_iff_ne, ne_eq, not_false_eq_true, Bool.true_and]
    cases hs : sshFind url.data with
    | some pr => simp [hurl]
    | none =>
      simp only [Bool.false_or]
      cases hp : parseURL url with
      | none => simp
      | some u =>
        by_cases hh : u.host == "github.com"
        · simp only [hh, if_true, Bool.true_and]
          cases hparts : githubParts u with
          | nil => simp [hparts, hurl]
          | cons o tl =>
            cases tl with
            | nil => simp [hparts, hurl]
            | cons r tl₂ =>
              have h2 : (2 : Nat) ≤ tl₂.length + 1 + 1 := by omega
              simp [hparts, hurl, h2]
        · simp only [Bool.not_eq_true] at hh
          simp [hh]

/-- Claim C5: For every history store state and every appended entry,
`addHistoryEntry` prepends the new entry at index 0 and retains at most 500
entries, evicting the oldest entries (those past index 499) first; appending a
501st entry yields exactly 500 entries with the oldest evicted and the newest
at index 0. -/
theorem addHistoryEntry_caps_at_500 (e : HistoryEntry) (es : List HistoryEntry) :
    addHistoryEntry e es = (e :: es).take MAX_ENTRIES ∧
    (addHistoryEntry e es).head? = some e ∧
    (addHistoryEntry e es).length = min (es.length + 1) MAX_ENTRIES ∧
    (es.length = MAX_ENTRIES →
      addHistoryEntry e es = e :: es.take (MAX_ENTRIES - 1) ∧
      (addHistoryEntry e es).length = MAX_ENTRIES) := by
  have htake : addHistoryEntry e es = (e :: es).take MAX_ENTRIES := by
    unfold addHistoryEntry
    by_cases h : (e :: es).length > MAX_ENTRIES
    · simp [h]
    · simp only [h, if_false]
      exact (List.take_of_length_le (by omega)).symm
  refine ⟨htake, ?_, ?_, ?_⟩
  · rw [htake]
    have : MAX_ENTRIES = 499 + 1 := rfl
    rw [this, List.take_succ_cons]
    rfl
  · rw [htake, List.length_take]
    simp [Nat.min_comm]
  · intro hlen
    constructor
    · rw [htake]
      have : MAX_ENTRIES = 499 + 1 := rfl
      rw [this, List.take_succ_cons]
    · rw [htake, List.length_take]
      simp [hlen]

/-- Witness for C5 at a concrete 500-entry store. -/
theorem addHistoryEntry_caps_at_500_witness :
    (List.replicate 500 (sampleEntry "old" 0)).length = MAX_ENTRIES ∧
    addHistoryEntry (sampleEntry "new" 1) (List.replicate 500 (sampleEntry "old" 0)) =
      sampleEntry "new" 1 :: (List.replicate 500 (sampleEntry "old" 0)).take 499 ∧
    (addHistoryEntry (sampleEntry "new" 1)
        (List.replicate 500 (sampleEntry "old" 0))).length = 500 := by
  have hlen : (List.replicate 500 (sampleEntry "old" 0)).length = MAX_ENTRIES :=
    List.length_replicate 500 _
  have h :=
    (addHistoryEntry_caps_at_500 (sampleEntry "new" 1)
      (List.replicate 500 (sampleEntry "old" 0))).2.2.2 hlen
  exact ⟨hlen, h.1, h.2⟩

/-- Claim C10: `getHistory` with both a (truthy) mapping id and a limit applies
the mapping-id filter before the limit, returning the first `n` entries of the
filtered (newest-first) store; a limit of 0 is treated as no limit and returns
all matching entries. -/
theorem getHistory_filters_before_limit (es : List HistoryEntry) (mid : String)
    (n : Nat) (hmid : mid ≠ "") :
    getHistory (some mid) (some n) es =
      (if n ≠ 0 then (es.filter (fun e => e.mappingId == mid)).take n
       else es.filter (fun e => e.mappingId == mid)) ∧
    getHistory (some mid) (some 0) es = es.filter (fun e => e.mappingId == mid) := by
  constructor
  · unfold getHistory
    by_cases hn : n ≠ 0 <;> simp [hmid, hn]
  · unfold getHistory
    simp [hmid]

theorem hasBadChar_append (a b : String) :
    hasBadChar (a ++ b) = (hasBadChar a || hasBadChar b) := by
  unfold hasBadChar
  rw [String.data_append, List.any_append]

theorem hasBadChar_gitignorePath (s : String) (h : hasBadChar s = false) :
    hasBadChar (pathJoin s ".gitignore") = false := by
  unfold pathJoin
  rw [hasBadChar_append, hasBadChar_append, h]
  rfl

/-- Claim C3: When the working-tree status after file sync reports zero changed
files (and the mapping got that far: paths valid, rsync succeeded),
`runBackupForMapping` returns the no-change outcome (`null`) and the action
trace contains no staging, no commit attempt, and no push. -/
theorem runBackupForMapping_no_change (env : SyncEnv) (m : Mapping)
    (cfg : GlobalConfig) (h1 : hasBadChar m.sourceDir = false)
    (h2 : hasBadChar (targetDirOf m cfg) = false) (h3 : env.rsyncError = none)
    (h4 : env.rsyncStatus = 0) (h5 : env.statusFiles = 0) :
    (runBackupForMapping env m cfg).1 = .ok none ∧
    (runBackupForMapping env m cfg).2.all (fun a => !a.isCommitPhase) = true := by
  have hg := hasBadChar_gitignorePath m.sourceDir h1
  unfold runBackupForMapping
  simp only [h1, h2, hg, h3, h4, h5, Bool.false_eq_true, if_false, Bool.and_false,
    ne_eq, not_true_eq_false, if_true]
  refine ⟨trivial, ?_⟩
  simp only [List.all_append, Bool.and_eq_true]
  refine ⟨⟨⟨?_, ?_⟩, ?_⟩, ?_⟩ <;> first | rfl | (split <;> rfl)

/-- Witness for C3 at a concrete mapping and environment. -/
theorem runBackupForMapping_no_change_witness :
    (runBackupForMapping { statusFiles := 0 }
        { id := "m1", name := "docs", sourceDir := "/data/docs", repoSubdir := "docs",
          enabled := true }
        { repoUrl := "https://github.com/o/r.git", branch := "main", repoDir := "/repo",
          userName := "u", userEmail := "e", backupIntervalHours := 6 }).1 = .ok none ∧
    (runBackupForMapping { statusFiles := 0 }
        { id := "m1", name := "docs", sourceDir := "/data/docs", repoSubdir := "docs",
          enabled := true }
        { repoUrl := "https://github.com/o/r.git", branch := "main", repoDir := "/repo",
          userName := "u", userEmail := "e", backupIntervalHours := 6 }).2.all
      (fun a => !a.isCommitPhase) = true :=
  runBackupForMapping_no_change _ _ _ (by decide) (by decide) rfl rfl rfl

/-- Claim C4: When the copilot invocation fails (spawn error or non-zero exit),
the commit step falls back to the deterministic message
`Backup <label>: <timestamp>`, commits it locally, and the mapping outcome is
still a success carrying that message (given the rest of the pipeline ran:
valid paths, rsync succeeded, changes present, push succeeded). -/
theorem commitWithCopilot_fallback (env : SyncEnv) (m : Mapping)
    (cfg : GlobalConfig) (h1 : hasBadChar m.sourceDir = false)
    (h2 : hasBadChar (targetDirOf m cfg) = false) (h3 : env.rsyncError = none)
    (h4 : env.rsyncStatus = 0) (h5 : env.statusFiles ≠ 0)
    (hc : env.copilotError.isSome = true ∨ env.copilotStatus ≠ 0)
    (hp : env.pushError = none) :
    commitWithCopilot env m.name =
      ("Backup " ++ m.name ++ ": " ++ env.now,
       [Action.copilotInvoke,
        Action.gitCommit ("Backup " ++ m.name ++ ": " ++ env.now)]) ∧
    (runBackupForMapping env m cfg).1 =
      .ok (some { commitSha := env.headSha,
                  commitMessage := "Backup " ++ m.name ++ ": " ++ env.now,
                  filesChanged := env.statusFiles }) ∧
    Action.gitCommit ("Backup " ++ m.name ++ ": " ++ env.now) ∈
      (runBackupForMapping env m cfg).2 := by
  have hcc : (env.copilotError.isNone && decide (env.copilotStatus = 0)) = false := by
    rcases hc with hc | hc
    · simp [Option.isNone_iff_eq_none, Option.isSome_iff_exists] at hc ⊢
      rcases hc with ⟨v, hv⟩
      simp [hv]
    · simp [hc]
  have hcw : commitWithCopilot env m.name =
      ("Backup " ++ m.name ++ ": " ++ env.now,
       [Action.copilotInvoke,
        Action.gitCommit ("Backup " ++ m.name ++ ": " ++ env.now)]) := by
    unfold commitWithCopilot
    simp [hcc]
  have hg := hasBadChar_gitignorePath m.sourceDir h1
  refine ⟨hcw, ?_, ?_⟩ <;>
  · unfold runBackupForMapping
    simp only [h1, h2, hg, h3, h4, h5, hcw, Bool.false_eq_true, if_false,
      Bool.and_false, ne_eq, not_false_eq_true, if_true, ite_false, hp]
    simp [hp, h5, List.mem_append]

/-- Witness for C4 at a concrete mapping and environment (copilot exits 1). -/
theorem commitWithCopilot_fallback_witness :
    (runBackupForMapping
        { statusFiles := 3, copilotStatus := 1, headSha := "abc123",
          now := "2026-01-01T00:00:00.000Z" }
        { id := "m1", name := "docs", sourceDir := "/data/docs", repoSubdir := "",
          enabled := true }
        { repoUrl := "https://github.com/o/r.git", branch := "main", repoDir := "/repo",
          userName := "u", userEmail := "e", backupIntervalHours := 6 }).1 =
      .ok (some { commitSha := "abc123",
                  commitMessage := "Backup docs: 2026-01-01T00:00:00.000Z",
                  filesChanged := 3 }) :=
  (commitWithCopilot_fallback _ _ _ (by decide) (by decide) rfl rfl
    (by decide) (Or.inr (by decide)) rfl).2.1

/-- Claim C6: A mapping whose `sourceDir` or resolved target directory contains
one of `"` `'` `;` `|` fails immediately with a configuration error, with an
empty action trace: no rsync invocation and no git operation happened for that
mapping. -/
theorem runBackupForMapping_rejects_bad_paths (env : SyncEnv) (m : Mapping)
    (cfg : GlobalConfig)
    (h : hasBadChar m.sourceDir = true ∨ hasBadChar (targetDirOf m cfg) = true) :
    (∃ msg, (runBackupForMapping env m cfg).1 = .error msg) ∧
    (runBackupForMapping env m cfg).2 = [] := by
  unfold runBackupForMapping
  rcases h with h | h
  · simp [h]
  · by_cases h1 : hasBadChar m.sourceDir = true <;> simp [h1, h]

/-- Witness for C6: a source directory containing a double quote. -/
theorem runBackupForMapping_rejects_bad_paths_witness :
    (∃ msg, (runBackupForMapping {}
        { id := "m1", name := "bad",
          sourceDir := String.mk ['/', 'd', Char.ofNat 34], repoSubdir := "",
          enabled := true }
        { repoUrl := "u", branch := "main", repoDir := "/repo", userName := "u",
          userEmail := "e", backupIntervalHours := 6 }).1 = .error msg) ∧
    (runBackupForMapping {}
        { id := "m1", name := "bad",
          sourceDir := String.mk ['/', 'd', Char.ofNat 34], repoSubdir := "",
          enabled := true }
        { repoUrl := "u", branch := "main", repoDir := "/repo", userName := "u",
          userEmail := "e", backupIntervalHours := 6 }).2 = [] :=
  runBackupForMapping_rejects_bad_paths _ _ _ (Or.inl (by decide))

/-- Claim C7, counterexample: With an empty-string entry in
`globalIgnorePatterns`, the argument vector the code passes to rsync omits
that pattern, while the claim's "every pattern ... in order" rule set keeps a
`--exclude=` entry for it: the claim as stated fails at this input. -/
theorem rsync_exclusions_counterexample :
    rsyncArgsOf {}
        { id := "m1", name := "n", sourceDir := "/src", repoSubdir := "",
          enabled := true }
        { repoUrl := "u", branch := "main", repoDir := "/repo", userName := "u",
          userEmail := "e", backupIntervalHours := 6,
          globalIgnorePatterns := [""] } =
      ["-av", "--delete", "--exclude=.git", "--exclude=.gitignore",
       "/src/", "/repo/"] ∧
    specRsyncArgs {}
        { id := "m1", name := "n", sourceDir := "/src", repoSubdir := "",
          enabled := true }
        { repoUrl := "u", branch := "main", repoDir := "/repo", userName := "u",
          userEmail := "e", backupIntervalHours := 6,
          globalIgnorePatterns := [""] } =
      ["-av", "--delete", "--exclude=.git", "--exclude=.gitignore", "--exclude=",
       "/src/", "/repo/"] ∧
    rsyncArgsOf {}
        { id := "m1", name := "n", sourceDir := "/src", repoSubdir := "",
          enabled := true }
        { repoUrl := "u", branch := "main", repoDir := "/repo", userName := "u",
          userEmail := "e", backupIntervalHours := 6,
          globalIgnorePatterns := [""] } ≠
      specRsyncArgs {}
        { id := "m1", name := "n", sourceDir := "/src", repoSubdir := "",
          enabled := true }
        { repoUrl := "u", branch := "main", repoDir := "/repo", userName := "u",
          userEmail := "e", backupIntervalHours := 6,
          globalIgnorePatterns := [""] } := by
  refine ⟨rfl, rfl, ?_⟩
  decide

/-- Claim C7, amended: The argument vector passed to the file-sync tool is
exactly: the base excludes (metadata directory, root `.gitignore`), then one
`--exclude=<p>` for every *non-empty* pattern, global patterns first then
per-mapping patterns, each list in order (union semantics, no override), then
the supplementary `--exclude-from` for a `.gitignore` inside `sourceDir` when
it exists; and (under passing path validation) the rsync invocation recorded
in the trace carries exactly this vector. -/
theorem rsync_exclusions_amended (env : SyncEnv) (m : Mapping)
    (cfg : GlobalConfig) (h1 : hasBadChar m.sourceDir = false)
    (h2 : hasBadChar (targetDirOf m cfg) = false) :
    rsyncArgsOf env m cfg = specRsyncArgsAmended env m cfg ∧
    Action.rsync (rsyncArgsOf env m cfg) ∈ (runBackupForMapping env m cfg).2 := by
  constructor
  · unfold rsyncArgsOf specRsyncArgsAmended
    simp [List.filter_append]
  · have hg := hasBadChar_gitignorePath m.sourceDir h1
    unfold runBackupForMapping
    simp only [h1, h2, hg, Bool.false_eq_true, if_false, Bool.and_false]
    rcases env.rsyncError with _ | e
    · by_cases hz : env.rsyncStatus = 0
      · by_cases hs : env.statusFiles = 0
        · simp [hz, hs, List.mem_append]
        · by_cases hpe : env.pushError = none
          · rcases hq : env.pushError with _ | e2
            · simp [hz, hs, hq, List.mem_append]
            · simp [hz, hs, hq, List.mem_append]
          · rcases hq : env.pushError with _ | e2
            · simp [hz, hs, hq, List.mem_append]
            · simp [hz, hs, hq, List.mem_append]
      · simp [hz, List.mem_append]
    · simp [List.mem_append]

/-- Witness for the amended C7 at a concrete mapping and configuration. -/
theorem rsync_exclusions_amended_witness :
    rsyncArgsOf { sourceGitignoreExists := true }
        { id := "m1", name := "n", sourceDir := "/src", repoSubdir := "sub",
          enabled := true, ignorePatterns := ["node_modules", ""] }
        { repoUrl := "u", branch := "main", repoDir := "/repo", userName := "u",
          userEmail := "e", backupIntervalHours := 6,
          globalIgnorePatterns := ["*.log"] } =
      specRsyncArgsAmended { sourceGitignoreExists := true }
        { id := "m1", name := "n", sourceDir := "/src", repoSubdir := "sub",
          enabled := true, ignorePatterns := ["node_modules", ""] }
        { repoUrl := "u", branch := "main", repoDir := "/repo", userName := "u",
          userEmail := "e", backupIntervalHours := 6,
          globalIgnorePatterns := ["*.log"] } ∧
    Action.rsync (rsyncArgsOf { sourceGitignoreExists := true }
        { id := "m1", name := "n", sourceDir := "/src", repoSubdir := "sub",
          enabled := true, ignorePatterns := ["node_modules", ""] }
        { repoUrl := "u", branch := "main", repoDir := "/repo", userName := "u",
          userEmail := "e", backupIntervalHours := 6,
          globalIgnorePatterns := ["*.log"] }) ∈
      (runBackupForMapping { sourceGitignoreExists := true }
        { id := "m1", name := "n", sourceDir := "/src", repoSubdir := "sub",
          enabled := true, ignorePatterns := ["node_modules", ""] }
        { repoUrl := "u", branch := "main", repoDir := "/repo", userName := "u",
          userEmail := "e", backupIntervalHours := 6,
          globalIgnorePatterns := ["*.log"] }).2 :=
  rsync_exclusions_amended _ _ _ (by decide) (by decide)

/-- Witness for C10: with entries for mappings `b` (newest) then `a`, a query
for mapping `a` with limit 1 returns mapping `a`'s newest entry (the filter ran
before the limit: the single overall-newest entry belongs to `b`). -/
theorem getHistory_filters_before_limit_witness :
    getHistory (some "a") (some 1) [sampleEntry "b" 0, sampleEntry "a" 1] =
      [sampleEntry "a" 1] ∧
    getHistory (some "a") (some 0) [sampleEntry "b" 0, sampleEntry "a" 1] =
      [sampleEntry "a" 1] := by
  have h :=
    getHistory_filters_before_limit [sampleEntry "b" 0, sampleEntry "a" 1] "a" 1
      (by decide)
  refine ⟨?_, ?_⟩
  · rw [h.1]
    decide
  · rw [h.2]
    decide

end GitBackup
